import Mathlib

/-!
Verification development for the pyjugex differential gene-expression
analysis program (source file analysispyjugex.py).  The definitions below
are a shallow embedding of the relevant parts of the source: floating
point numbers are modelled as rationals, numpy arrays as lists, and the
statsmodels OLS/ANOVA fit (external library code) as an abstract function
from the region-label column and the gene index to an F-statistic.
-/

set_option autoImplicit false

namespace Pyjugex

/-! ### The permutation ANOVA engine

Embeds Analysis.first_iteration, Analysis.fwe_correction and
Analysis.accumulate_result.  The model fit
ols(Zscores ~ Area + Specimen + Age + Race).fit followed by
anova_lm(..., typ=1) and extraction of the Region F value is library
code, abstracted as a function fit taking the current Area column and
the gene index.  The numpy global random generator is modelled as a
stream rng of draws indexed by how many draws happened before: the k-th
call of np.random.permutation receives the current list and returns the
shuffled copy rng k list. -/

structure AnovaSetup where
  fit : List String → Nat → ℚ
  area0 : List String
  nGenes : Nat
  nRep : Nat
  rng : Nat → List String → List String

/-- Embeds Analysis.first_iteration: the observed (unpermuted)
F-statistic vector, one entry per gene, computed with the original
Area column. -/
def F_vec_ref_anovan (s : AnovaSetup) : List ℚ :=
  (List.range s.nGenes).map (fun j => s.fit s.area0 j)

/-- The Area column after k draws of np.random.permutation, starting
from the original column.  Each draw shuffles the current column (the
source overwrites anova_data[Area] with the shuffle each time). -/
def areaAfterDraws (s : AnovaSetup) : Nat → List String
  | 0 => s.area0
  | Nat.succ k => s.rng k (areaAfterDraws s k)

/-- The Area column resulting from g further draws, when d draws have
already happened and the current column is area. -/
def areaIter (s : AnovaSetup) (d : Nat) (area : List String) : Nat → List String
  | 0 => area
  | Nat.succ g => areaIter s (d + 1) (s.rng d area) g

/-- Embeds the inner gene loop of Analysis.fwe_correction: d draws have
happened, the current Area column is area, the next gene index is j and
g genes remain.  For each gene a fresh shuffle is drawn (one draw per
gene), the Area column is overwritten with it, and the model is refit
for that gene with the freshly shuffled column. -/
def permRowAux (s : AnovaSetup) (d : Nat) (area : List String) (j : Nat) : Nat → List ℚ
  | 0 => []
  | Nat.succ g => s.fit (s.rng d area) j :: permRowAux s (d + 1) (s.rng d area) (j + 1) g

/-- Embeds the outer rep loop of Analysis.fwe_correction: r remaining
repetitions, each producing one row of the null-distribution matrix;
the Area column and the draw counter carry over from row to row. -/
def permRows (s : AnovaSetup) (d : Nat) (area : List String) : Nat → List (List ℚ)
  | 0 => []
  | Nat.succ r =>
      permRowAux s d area 0 s.nGenes ::
        permRows s (d + s.nGenes) (areaIter s d area s.nGenes) r

/-- Embeds F_mat_perm_anovan as assembled by Analysis.fwe_correction:
row 0 is set to the observed vector before the loop, rows 1..n_rep-1
come from the permutation loop. -/
def F_mat_perm_anovan (s : AnovaSetup) : List (List ℚ) :=
  F_vec_ref_anovan s :: permRows s 0 s.area0 (s.nRep - 1)

/-- Maximum of a list of rationals, as numpy max over a row (the value
for an empty row is irrelevant junk; numpy would raise there). -/
def listMax : List ℚ → ℚ
  | [] => 0
  | x :: xs => xs.foldl max x

/-- Embeds Analysis.accumulate_result: ref is the row-wise maximum of
the null matrix over genes; the corrected p-value of a gene with
observed statistic f is the number of rows whose maximum is at least f,
divided by n_rep (true division in the source). -/
def FWE_corrected_p (s : AnovaSetup) : List ℚ :=
  (F_vec_ref_anovan s).map (fun f =>
    (((((F_mat_perm_anovan s).map listMax).filter (fun a => decide (f ≤ a))).length : ℚ)
      / (s.nRep : ℚ)))

/-! ### Helper lemmas for the engine -/

theorem areaIter_areaAfterDraws (s : AnovaSetup) :
    ∀ (g d : Nat), areaIter s d (areaAfterDraws s d) g = areaAfterDraws s (d + g) := by
  intro g
  induction g with
  | zero => intro d; simp [areaIter]
  | succ g ih =>
      intro d
      have h1 : s.rng d (areaAfterDraws s d) = areaAfterDraws s (d + 1) := rfl
      calc areaIter s d (areaAfterDraws s d) (Nat.succ g)
          = areaIter s (d + 1) (areaAfterDraws s (d + 1)) g := by
            rw [areaIter, h1]
        _ = areaAfterDraws s (d + 1 + g) := ih (d + 1)
        _ = areaAfterDraws s (d + Nat.succ g) := by
            rw [Nat.add_assoc, Nat.add_comm 1 g]

theorem permRowAux_length (s : AnovaSetup) :
    ∀ (g d : Nat) (area : List String) (j : Nat),
      (permRowAux s d area j g).length = g := by
  intro g
  induction g with
  | zero => intro d area j; rfl
  | succ g ih => intro d area j; simp [permRowAux, ih]

theorem permRowAux_getElem (s : AnovaSetup) :
    ∀ (g d j m : Nat), m < g →
      (permRowAux s d (areaAfterDraws s d) j g)[m]? =
        some (s.fit (areaAfterDraws s (d + m + 1)) (j + m)) := by
  intro g
  induction g with
  | zero => intro d j m hm; omega
  | succ g ih =>
      intro d j m hm
      have h1 : s.rng d (areaAfterDraws s d) = areaAfterDraws s (d + 1) := rfl
      rw [permRowAux, h1]
      match m with
      | 0 => simp
      | Nat.succ m =>
          have hm2 : m < g := by omega
          have h3 := ih (d + 1) (j + 1) m hm2
          have e1 : d + 1 + m + 1 = d + Nat.succ m + 1 := by omega
          have e2 : j + 1 + m = j + Nat.succ m := by omega
          rw [List.getElem?_cons_succ, h3, e1, e2]

theorem permRows_length (s : AnovaSetup) :
    ∀ (r d : Nat) (area : List String), (permRows s d area r).length = r := by
  intro r
  induction r with
  | zero => intro d area; rfl
  | succ r ih => intro d area; simp [permRows, ih]

theorem permRows_getElem (s : AnovaSetup) :
    ∀ (r t d : Nat), t < r →
      (permRows s d (areaAfterDraws s d) r)[t]? =
        some (permRowAux s (d + t * s.nGenes)
          (areaAfterDraws s (d + t * s.nGenes)) 0 s.nGenes) := by
  intro r
  induction r with
  | zero => intro t d ht; omega
  | succ r ih =>
      intro t d ht
      rw [permRows]
      match t with
      | 0 => simp
      | Nat.succ t =>
          have ht2 : t < r := by omega
          rw [List.getElem?_cons_succ]
          rw [areaIter_areaAfterDraws s s.nGenes d]
          have h3 := ih t (d + s.nGenes) ht2
          have e1 : d + s.nGenes + t * s.nGenes = d + Nat.succ t * s.nGenes := by
            rw [Nat.succ_mul]; ring
          rw [h3, e1]

theorem le_foldl_max : ∀ (xs : List ℚ) (a x : ℚ), x ≤ a ∨ x ∈ xs → x ≤ xs.foldl max a := by
  intro xs
  induction xs with
  | nil => intro a x h; simpa using h
  | cons y ys ih =>
      intro a x h
      have h2 : x ≤ max a y ∨ x ∈ ys := by
        rcases h with h | h
        · exact Or.inl (le_trans h (le_max_left a y))
        · rcases List.mem_cons.mp h with h | h
          · exact Or.inl (h ▸ le_max_right a y)
          · exact Or.inr h
      simpa using ih (max a y) x h2

theorem mem_le_listMax (l : List ℚ) (x : ℚ) (h : x ∈ l) : x ≤ listMax l := by
  match l, h with
  | y :: ys, h =>
      have h2 : x ≤ y ∨ x ∈ ys := by
        rcases List.mem_cons.mp h with h | h
        · exact Or.inl (le_of_eq h)
        · exact Or.inr h
      exact le_foldl_max ys y x h2

theorem FWE_getElem (s : AnovaSetup) (g : Nat) (hg : g < s.nGenes) :
    (FWE_corrected_p s)[g]? =
      some ((((((F_mat_perm_anovan s).map listMax).filter
        (fun a => decide (s.fit s.area0 g ≤ a))).length : ℚ)) / (s.nRep : ℚ)) := by
  have href : (F_vec_ref_anovan s)[g]? = some (s.fit s.area0 g) := by
    rw [F_vec_ref_anovan, List.getElem?_map, List.getElem?_range hg, Option.map_some']
  rw [FWE_corrected_p, List.getElem?_map, href, Option.map_some']

/-- A concrete setup for evaluating the engine on small inputs: two
genes, three repetitions, a fit that depends only on the label column,
and a random stream whose every draw reverses the current column
(reversal is a genuine permutation). -/
def demoSetup : AnovaSetup where
  fit := fun area _ => if area = ["img1", "img2"] then 0 else 1
  area0 := ["img1", "img2"]
  nGenes := 2
  nRep := 3
  rng := fun _ l => l.reverse

/-- C1: for every completed analysis, the FWE-corrected p-value of each
gene g equals the number of rows of the null-distribution matrix whose
maximum F-statistic over all genes is at least the observed
(unpermuted) F-statistic of g, divided by n_rep. -/
theorem c1_fwe_formula (s : AnovaSetup) (g : Nat) (hg : g < s.nGenes) :
    (FWE_corrected_p s)[g]? =
      some ((((F_mat_perm_anovan s).countP
        (fun row => decide (s.fit s.area0 g ≤ listMax row))) : ℚ) / (s.nRep : ℚ)) := by
  rw [FWE_getElem s g hg]
  have hc : ((((F_mat_perm_anovan s).map listMax).filter
      (fun a => decide (s.fit s.area0 g ≤ a))).length) =
      (F_mat_perm_anovan s).countP
        (fun row => decide (s.fit s.area0 g ≤ listMax row)) := by
    rw [← List.countP_eq_length_filter, List.countP_map]
    rfl
  rw [hc]

/-- Witness for C1 at the concrete demo setup. -/
theorem c1_witness :
    (FWE_corrected_p demoSetup)[0]? =
      some ((((F_mat_perm_anovan demoSetup).countP
        (fun row => decide (demoSetup.fit demoSetup.area0 0 ≤ listMax row))) : ℚ)
          / (demoSetup.nRep : ℚ)) :=
  c1_fwe_formula demoSetup 0 (by decide)

/-- C6: row 0 of the null-distribution matrix always equals the
unpermuted observed F-statistic vector of the reference fit, for every
setup and hence regardless of the random stream. -/
theorem c6_row0_anchor (s : AnovaSetup) :
    (F_mat_perm_anovan s)[0]? = some (F_vec_ref_anovan s) := by
  rw [F_mat_perm_anovan]
  simp

/-- C2 counterexample: in the demo setup the fit depends only on the
label column, so if all genes of one permutation row shared a single
label shuffle the row would be constant; but row 1 produced by the
code is [1, 0].  Hence no single shuffled column generates row 1: the
code draws a fresh shuffle for each gene inside one repetition. -/
theorem c2_counterexample :
    ¬ ∃ a : List String, (F_mat_perm_anovan demoSetup)[1]? =
      some [demoSetup.fit a 0, demoSetup.fit a 1] := by
  intro h
  obtain ⟨a, ha⟩ := h
  have h1 : (F_mat_perm_anovan demoSetup)[1]? = some [(1 : ℚ), 0] := by rfl
  rw [h1] at ha
  have h2 : demoSetup.fit a 0 = demoSetup.fit a 1 := rfl
  have h3 : ([(1 : ℚ), 0] : List ℚ) = [demoSetup.fit a 0, demoSetup.fit a 1] :=
    Option.some.inj ha
  have h4 : (1 : ℚ) = demoSetup.fit a 0 := (List.cons.inj h3).1
  have h5 : (0 : ℚ) = demoSetup.fit a 1 := (List.cons.inj (List.cons.inj h3).2).1
  have : (1 : ℚ) = 0 := by rw [h4, h2, ← h5]
  norm_num at this

/-- C2 amended: in each repetition rep ≥ 1 the code draws one fresh
shuffle per gene, cumulatively: the entry of row rep for gene j is the
fit of gene j against the label column obtained after
(rep - 1) * n_genes + j + 1 successive draws from the random stream,
each draw shuffling the column left by the previous one. -/
theorem c2_per_gene_shuffle (s : AnovaSetup) (rep j : Nat)
    (h1 : 1 ≤ rep) (h2 : rep < s.nRep) (hj : j < s.nGenes) :
    ((F_mat_perm_anovan s)[rep]?).bind (fun row => row[j]?) =
      some (s.fit (areaAfterDraws s ((rep - 1) * s.nGenes + j + 1)) j) := by
  obtain ⟨t, rfl⟩ : ∃ t, rep = t + 1 := ⟨rep - 1, by omega⟩
  have hrows : (F_mat_perm_anovan s)[t + 1]? =
      (permRows s 0 s.area0 (s.nRep - 1))[t]? := by
    rw [F_mat_perm_anovan]
    exact List.getElem?_cons_succ
  have ht : t < s.nRep - 1 := by omega
  have h0 : s.area0 = areaAfterDraws s 0 := rfl
  rw [hrows, h0, permRows_getElem s (s.nRep - 1) t 0 ht, Option.some_bind]
  have e0 : (0 : Nat) + t * s.nGenes = t * s.nGenes := by omega
  rw [e0, permRowAux_getElem s s.nGenes (t * s.nGenes) 0 j hj]
  have e1 : t * s.nGenes + j + 1 = (t + 1 - 1) * s.nGenes + j + 1 := by
    simp
  have e2 : (0 : Nat) + j = j := by omega
  rw [e1, e2]

/-- Witness for the amended C2 at the concrete demo setup. -/
theorem c2_witness :
    ((F_mat_perm_anovan demoSetup)[1]?).bind (fun row => row[0]?) =
      some (demoSetup.fit
        (areaAfterDraws demoSetup ((1 - 1) * demoSetup.nGenes + 0 + 1)) 0) :=
  c2_per_gene_shuffle demoSetup 1 0 (by decide) (by decide) (by decide)

/-- C10: the corrected p-value of every gene lies in [1/n_rep, 1]; it
is never 0 because row 0 of the null matrix is the observed vector,
whose maximum over genes is at least the observed statistic of every
gene. -/
theorem c10_p_bounds (s : AnovaSetup) (g : Nat) (hg : g < s.nGenes) (hrep : 1 ≤ s.nRep) :
    ∃ p, (FWE_corrected_p s)[g]? = some p ∧ 1 / (s.nRep : ℚ) ≤ p ∧ p ≤ 1 := by
  have hpos : (0 : ℚ) < (s.nRep : ℚ) := by
    exact_mod_cast Nat.pos_of_ne_zero (by omega)
  have hmem : s.fit s.area0 g ∈ F_vec_ref_anovan s := by
    rw [F_vec_ref_anovan]
    exact List.mem_map.mpr ⟨g, List.mem_range.mpr hg, rfl⟩
  have hhead : decide (s.fit s.area0 g ≤ listMax (F_vec_ref_anovan s)) = true :=
    decide_eq_true (mem_le_listMax _ _ hmem)
  have hcnt1 : 1 ≤ ((((F_mat_perm_anovan s).map listMax).filter
      (fun a => decide (s.fit s.area0 g ≤ a))).length) := by
    rw [F_mat_perm_anovan, List.map_cons, List.filter_cons]
    simp only [hhead, if_true, List.length_cons]
    omega
  have hcntn : ((((F_mat_perm_anovan s).map listMax).filter
      (fun a => decide (s.fit s.area0 g ≤ a))).length) ≤ s.nRep := by
    calc ((((F_mat_perm_anovan s).map listMax).filter
          (fun a => decide (s.fit s.area0 g ≤ a))).length)
        ≤ ((F_mat_perm_anovan s).map listMax).length := List.length_filter_le _ _
      _ = (F_mat_perm_anovan s).length := List.length_map _ _
      _ = s.nRep := by
          rw [F_mat_perm_anovan, List.length_cons, permRows_length]
          omega
  refine ⟨_, FWE_getElem s g hg, ?_, ?_⟩
  · rw [div_le_div_iff_of_pos_right hpos]
    exact_mod_cast hcnt1
  · rw [div_le_one hpos]
    exact_mod_cast hcntn

/-- Witness for C10 at the concrete demo setup. -/
theorem c10_witness :
    ∃ p, (FWE_corrected_p demoSetup)[0]? = some p ∧
      1 / (demoSetup.nRep : ℚ) ≤ p ∧ p ≤ 1 :=
  c10_p_bounds demoSetup 0 (by decide) (by decide)

/-! ### ROI volumes and the region filter

Embeds the coordinate filter of Analysis.expressionSpmCorrelation.  A
nii volume is a 3D scalar array with an extent per axis; numpy integer
indexing accepts 0 ≤ i < n directly, wraps -n ≤ i < 0 to n + i, and
raises IndexError otherwise (modelled as none). -/

abbrev Coord := ℤ × ℤ × ℤ

structure Volume where
  shape1 : Nat
  shape2 : Nat
  shape3 : Nat
  data : Nat → Nat → Nat → ℚ

def npIndex (n : Nat) (i : ℤ) : Option Nat :=
  if 0 ≤ i ∧ i < (n : ℤ) then some i.toNat
  else if -(n : ℤ) ≤ i ∧ i < 0 then some ((n : ℤ) + i).toNat
  else none

def volIndex (vol : Volume) (c : Coord) : Option ℚ :=
  match npIndex vol.shape1 c.1, npIndex vol.shape2 c.2.1, npIndex vol.shape3 c.2.2 with
  | some i, some j, some k => some (vol.data i j k)
  | _, _, _ => none

/-- The (coord > 0).sum() == 3 test of the source: all three axes of
the voxel index strictly positive (note: strictly, the source uses >
0, so axis value 0 fails the test). -/
def allPosB (c : Coord) : Bool :=
  decide (0 < c.1) && decide (0 < c.2.1) && decide (0 < c.2.2)

def sentinel : Coord := (-1, -1, -1)

inductive FilterStep where
  | ok (c : Coord)
  | indexError
deriving DecidableEq

/-- Embeds the per-coordinate conditional of line 257: the coordinate
is replaced by the sentinel when the all-positive test fails (the or
short-circuits, so the volume is not indexed then), or when the voxel
value is at most the threshold, or when it is zero; otherwise it is
kept.  Indexing an in-range-negative-free but out-of-bounds voxel
raises IndexError. -/
def checkCoord (vol : Volume) (thr : ℚ) (c : Coord) : FilterStep :=
  if allPosB c then
    match volIndex vol c with
    | none => FilterStep.indexError
    | some v => if v ≤ thr ∨ v = 0 then FilterStep.ok sentinel else FilterStep.ok c
  else FilterStep.ok sentinel

/-- The list comprehension of line 257 over all transformed
coordinates; an IndexError anywhere aborts the whole comprehension. -/
def checkAll (vol : Volume) (thr : ℚ) : List Coord → Option (List Coord)
  | [] => some []
  | c :: cs =>
      match checkCoord vol thr c with
      | FilterStep.indexError => none
      | FilterStep.ok c2 => Option.map (fun rest => c2 :: rest) (checkAll vol thr cs)

/-- Line 258: the retained coordinates are those that still pass the
all-positive test (the sentinel never does). -/
def keptCoords (vol : Volume) (thr : ℚ) (cs : List Coord) : Option (List Coord) :=
  Option.map (List.filter allPosB) (checkAll vol thr cs)

/-- A concrete 3x3x3 volume of constant intensity 1. -/
def demoVol : Volume where
  shape1 := 3
  shape2 := 3
  shape3 := 3
  data := fun _ _ _ => 1

/-- C4: a rounded voxel index with any axis exactly 0 is rejected with
the sentinel, a voxel whose intensity equals the threshold exactly is
rejected with the sentinel (strict >, not ≥), and the sentinel fails
the keep test, so both are dropped from the retained output. -/
theorem c4_boundary (vol : Volume) (thr : ℚ) (c c2 : Coord)
    (h0 : c.1 = 0 ∨ c.2.1 = 0 ∨ c.2.2 = 0)
    (hpos : allPosB c2 = true) (hv : volIndex vol c2 = some thr) :
    checkCoord vol thr c = FilterStep.ok sentinel ∧
    checkCoord vol thr c2 = FilterStep.ok sentinel ∧
    allPosB sentinel = false := by
  refine ⟨?_, ?_, rfl⟩
  · have hnp : allPosB c = false := by
      rcases h0 with h | h | h <;> simp [allPosB, h]
    simp [checkCoord, hnp]
  · simp [checkCoord, hpos, hv]

/-- Witness for C4: axis-zero coordinate and exact-threshold voxel in
the concrete demo volume. -/
theorem c4_witness :
    checkCoord demoVol 1 (0, 2, 2) = FilterStep.ok sentinel ∧
    checkCoord demoVol 1 (1, 1, 1) = FilterStep.ok sentinel ∧
    allPosB sentinel = false :=
  c4_boundary demoVol 1 (0, 2, 2) (1, 1, 1) (by decide) (by decide) (by decide)

/-- C5 counterexample: the all-positive coordinate (1, 1, 5) is out of
bounds for the 3x3x3 demo volume; the source raises IndexError there
instead of replacing the coordinate with the sentinel, so the filter
is not total over all coordinates with all axes positive. -/
theorem c5_counterexample :
    checkCoord demoVol 1 (1, 1, 5) ≠ FilterStep.ok sentinel ∧
    keptCoords demoVol 1 [(1, 1, 5)] = none := by
  constructor
  · decide
  · decide

theorem checkCoord_ne_indexError (vol : Volume) (thr : ℚ) (c : Coord)
    (h : allPosB c = true → (volIndex vol c).isSome = true) :
    checkCoord vol thr c ≠ FilterStep.indexError := by
  by_cases hp : allPosB c
  · obtain ⟨v, hv⟩ := Option.isSome_iff_exists.mp (h hp)
    simp only [checkCoord, hp, if_true, hv]
    split <;> simp
  · simp [checkCoord, hp]

/-- C5 amended: the filter is total (never raises) over coordinate
lists in which every coordinate passing the all-positive test is also
within the volume bounds; a coordinate failing the all-positive test
never reaches the indexing step. -/
theorem c5_total_in_bounds (vol : Volume) (thr : ℚ) (cs : List Coord)
    (h : ∀ c ∈ cs, allPosB c = true → (volIndex vol c).isSome = true) :
    (keptCoords vol thr cs).isSome = true := by
  induction cs with
  | nil => rfl
  | cons c cs ih =>
      have hc := checkCoord_ne_indexError vol thr c (h c (List.mem_cons_self c cs))
      have hrest := ih (fun c2 hc2 => h c2 (List.mem_cons_of_mem c hc2))
      obtain ⟨rest, hr⟩ := Option.isSome_iff_exists.mp
        (by simpa [keptCoords] using hrest : (checkAll vol thr cs).isSome = true)
      match hstep : checkCoord vol thr c with
      | FilterStep.indexError => exact absurd hstep hc
      | FilterStep.ok c2 => simp [keptCoords, checkAll, hstep, hr]

/-- Witness for the amended C5 on a concrete list mixing rejected and
in-bounds coordinates. -/
theorem c5_witness :
    (keptCoords demoVol 1 [(0, 0, 0), (1, 1, 1), (-2, 5, 1)]).isSome = true :=
  c5_total_in_bounds demoVol 1 [(0, 0, 0), (1, 1, 1), (-2, 5, 1)] (by decide)

/-! ### Coordinate transform

Embeds transformSamples (lines 35-46) and the composition and rounding
of expressionSpmCorrelation lines 249-255.  The 4x4 inverse computed
by numpy.linalg.inv is passed as data (invImgAffine), characterised
when needed by the hypothesis that it multiplies with the affine to
the identity. -/

abbrev Vec3 := ℚ × ℚ × ℚ

abbrev Mat4 := Fin 4 → Fin 4 → ℚ

def matMul (M N : Mat4) : Mat4 := fun i j =>
  M i 0 * N 0 j + M i 1 * N 1 j + M i 2 * N 2 j + M i 3 * N 3 j

def idMat : Mat4 := fun i j => if i = j then 1 else 0

/-- Application of the top three rows T[0:3, 0:4] to the homogeneous
coordinate (x, y, z, 1), as in transformSamples. -/
def applyAffine (T : Mat4) (v : Vec3) : Vec3 :=
  (T 0 0 * v.1 + T 0 1 * v.2.1 + T 0 2 * v.2.2 + T 0 3,
   T 1 0 * v.1 + T 1 1 * v.2.1 + T 1 2 * v.2.2 + T 1 3,
   T 2 0 * v.1 + T 2 1 * v.2.1 + T 2 2 * v.2.2 + T 2 3)

/-- Embeds transformSamples: one transformed coordinate per sample, in
order. -/
def transformSamples (samples : List Vec3) (T : Mat4) : List Vec3 :=
  samples.map (applyAffine T)

/-- np.rint: round to nearest integer, halves to the even integer. -/
def roundHalfEven (q : ℚ) : ℤ :=
  if q - ⌊q⌋ < 1 / 2 then ⌊q⌋
  else if 1 / 2 < q - ⌊q⌋ then ⌊q⌋ + 1
  else if ⌊q⌋ % 2 = 0 then ⌊q⌋ else ⌊q⌋ + 1

def rint3 (v : Vec3) : Coord :=
  (roundHalfEven v.1, roundHalfEven v.2.1, roundHalfEven v.2.2)

/-- Lines 249-255: compose inv(imgMni) with the specimen alignment,
transform all samples and round to integer voxel indices. -/
def transformedVoxels (invImgAffine alignment : Mat4) (samples : List Vec3) : List Coord :=
  (transformSamples samples (matMul invImgAffine alignment)).map rint3

theorem applyAffine_id (v : Vec3) : applyAffine idMat v = v := by
  obtain ⟨x, y, z⟩ := v
  show ((1 : ℚ) * x + 0 * y + 0 * z + 0, (0 : ℚ) * x + 1 * y + 0 * z + 0,
    (0 : ℚ) * x + 0 * y + 1 * z + 0) = (x, y, z)
  norm_num

theorem matMul_id_id : matMul idMat idMat = idMat := by
  funext i j
  fin_cases i <;> fin_cases j <;> simp +decide [matMul, idMat]

/-- C8: the coordinate transform produces exactly one output per input
sample in the same order with no filtering, and for identity specimen
alignment and identity ROI affine the transformed-and-rounded
coordinates are the rounded raw inputs. -/
theorem c8_transform (samples : List Vec3) (T invA : Mat4) (i : Nat)
    (hinv : matMul invA idMat = idMat) :
    (transformSamples samples T).length = samples.length ∧
    (transformSamples samples T)[i]? = Option.map (applyAffine T) samples[i]? ∧
    transformedVoxels invA idMat samples = samples.map rint3 := by
  refine ⟨List.length_map _ _, List.getElem?_map _ _ _, ?_⟩
  rw [transformedVoxels, transformSamples, hinv, List.map_map]
  exact List.map_congr_left (fun v _ => by
    rw [Function.comp_apply, applyAffine_id])

/-- Witness for C8 on a concrete sample list with identity matrices. -/
theorem c8_witness :
    (transformSamples [((1 : ℚ) / 2, -3 / 2, 2)] idMat).length =
      ([((1 : ℚ) / 2, -3 / 2, 2)] : List Vec3).length ∧
    (transformSamples [((1 : ℚ) / 2, -3 / 2, 2)] idMat)[0]? =
      Option.map (applyAffine idMat) ([((1 : ℚ) / 2, -3 / 2, 2)] : List Vec3)[0]? ∧
    transformedVoxels idMat idMat [((1 : ℚ) / 2, -3 / 2, 2)] =
      ([((1 : ℚ) / 2, -3 / 2, 2)] : List Vec3).map rint3 :=
  c8_transform [((1 : ℚ) / 2, -3 / 2, 2)] idMat idMat 0 matMul_id_id

/-! ### Entry-point control flow -/

inductive RunOutcome where
  | halted
  | analysisStarted (warnedMissingRoi : Bool)
deriving DecidableEq

/-- Embeds the control flow of Analysis.DifferentialAnalysis lines
92-104: an empty gene list prints a message and calls exit(); a
missing region only prints a message, after which the method
unconditionally continues into set_candidate_genes, set_ROI_MNI152 and
performAnova (analysisStarted records whether the missing-region
message was printed). -/
def DifferentialAnalysis (genelist : List String) (roi1 roi2 : Option Volume) :
    RunOutcome :=
  if genelist.isEmpty then RunOutcome.halted
  else RunOutcome.analysisStarted (roi1.isNone || roi2.isNone)

/-- C3: an empty gene list halts before any computation, but a missing
ROI volume only triggers the warning message and the analysis still
starts, contradicting the claim that both cases stop before any
computation. -/
theorem c3_missing_roi_proceeds :
    DifferentialAnalysis [] (some demoVol) (some demoVol) = RunOutcome.halted ∧
    DifferentialAnalysis ["MAOA"] Option.none (some demoVol) =
      RunOutcome.analysisStarted true :=
  ⟨rfl, rfl⟩

/-! ### Covariate lookup in the design-table construction

Embeds the Age and Race list comprehensions of Analysis.initialize
(lines 414-416).  A Python value that is either the looked-up scalar or
the literal one-element list of the fallback branch is modelled by
PyEntry. -/

inductive PyEntry (α : Type) where
  | scalar (a : α)
  | singletonList (a : α)
deriving DecidableEq

/-- Python list.index: position of the first occurrence, none when the
element is absent (the source guards the call with membership in the
set of names, so the none case never raises there). -/
def pyIndex (a : String) : List String → Option Nat
  | [] => none
  | x :: xs => if x = a then some 0 else Option.map (fun i => i + 1) (pyIndex a xs)

/-- One entry of the Age (or Race) column: when the specimen name a is
found among the covariate-table names, the scalar value at its first
index; otherwise the one-element list wrapping the value of the first
table entry (the fallback branch of lines 415-416 writes the list
literal, brackets included). -/
def lookupCovariate {α : Type} [Inhabited α]
    (names : List String) (vals : List α) (a : String) : PyEntry α :=
  match pyIndex a names with
  | some i => PyEntry.scalar (vals.getD i default)
  | none => PyEntry.singletonList (vals.getD 0 default)

/-- The full Age (or Race) column, one entry per retained sample. -/
def covariateColumn {α : Type} [Inhabited α]
    (names : List String) (vals : List α) (specimens : List String) : List (PyEntry α) :=
  specimens.map (lookupCovariate names vals)

/-- C7 counterexample: for a missing specimen name the code stores the
one-element Python list wrapping the first table value, not the first
table value itself. -/
theorem c7_counterexample :
    lookupCovariate ["H0351.2001"] [(30 : ℚ)] "H0351.9999" ≠ PyEntry.scalar 30 ∧
    lookupCovariate ["H0351.2001"] [(30 : ℚ)] "H0351.9999" =
      PyEntry.singletonList 30 := by
  constructor <;> decide

/-- C7 amended: when a retained sample's specimen name is absent from
the covariate table, its Age/Race entry is set to the one-element list
containing the first covariate-table entry's value (a silent default
fallback, not an error) rather than to that value itself. -/
theorem c7_fallback {α : Type} [Inhabited α] (names : List String) (vals : List α)
    (specimens : List String) (i : Nat) (a : String)
    (hi : specimens[i]? = some a) (h : pyIndex a names = none) :
    (covariateColumn names vals specimens)[i]? =
      some (PyEntry.singletonList (vals.getD 0 default)) := by
  rw [covariateColumn, List.getElem?_map, hi, Option.map_some', lookupCovariate, h]

/-- Witness for the amended C7, for an age column (rationals) and a
race column (strings). -/
theorem c7_witness :
    (covariateColumn ["H0351.2001"] [(30 : ℚ)] ["H0351.9999"])[0]? =
      some (PyEntry.singletonList ((30 : ℚ))) ∧
    (covariateColumn ["H0351.2001"] ["W"] ["H0351.9999"])[0]? =
      some (PyEntry.singletonList "W") := by
  constructor
  · exact c7_fallback ["H0351.2001"] [(30 : ℚ)] ["H0351.9999"] 0 "H0351.9999"
      rfl (by decide)
  · exact c7_fallback ["H0351.2001"] ["W"] ["H0351.9999"] 0 "H0351.9999"
      rfl (by decide)

/-! ### Gene aggregation (Analysis.getmeanzscores)

np.unique returns the sorted unique gene symbols; for each unique
symbol the probe columns carrying it are gathered, and for each row
the winsorized (limits 0.1, inclusive) mean of those entries becomes
the collapsed value. -/

def insertSorted (x : ℚ) : List ℚ → List ℚ
  | [] => [x]
  | y :: ys => if x ≤ y then x :: y :: ys else y :: insertSorted x ys

def sortQ : List ℚ → List ℚ
  | [] => []
  | x :: xs => insertSorted x (sortQ xs)

def insertSortedStr (x : String) : List String → List String
  | [] => [x]
  | y :: ys =>
      if compare x y ≠ Ordering.gt then x :: y :: ys else y :: insertSortedStr x ys

def sortStr : List String → List String
  | [] => []
  | x :: xs => insertSortedStr x (sortStr xs)

def dedupAdj : List String → List String
  | [] => []
  | [x] => [x]
  | x :: y :: xs => if x = y then dedupAdj (y :: xs) else x :: dedupAdj (y :: xs)

/-- np.unique of the gene-symbol list: sorted, duplicates removed. -/
def uniqueSymbols (gs : List String) : List String := dedupAdj (sortStr gs)

/-- np.where(np.in1d(gene_symbols, x))[0]: the positions of the probe
columns whose symbol equals x. -/
def probeIndices (gs : List String) (x : String) : List Nat :=
  (List.range gs.length).filter (fun t => gs.getD t "" = x)

/-- One pass of scipy winsorize with limits 0.1 (inclusive bounds):
with n values sorted in s and lowidx = int(0.1 * n), entries at sorted
positions below lowidx are replaced by the value at position lowidx,
entries at positions at least n - lowidx by the value at position
n - lowidx - 1. -/
def winsorizeIdx (n lo : Nat) (s : List ℚ) : Nat → List ℚ → List ℚ
  | _, [] => []
  | i, x :: xs =>
      (if i < lo then s.getD lo 0
       else if n - lo ≤ i then s.getD (n - lo - 1) 0 else x) ::
        winsorizeIdx n lo s (i + 1) xs

/-- np.mean of sp.stats.mstats.winsorize(values, limits=0.1): the mean
ignores order, so the clamping is applied on the sorted values. -/
def winsorizedMean (l : List ℚ) : ℚ :=
  (winsorizeIdx l.length (l.length / 10) (sortQ l) 0 (sortQ l)).sum / (l.length : ℚ)

/-- The collapsed (rows x unique genes) matrix of winsorized means. -/
def collapsedZscores (gs : List String) (combined_zscores : List (List ℚ)) :
    List (List ℚ) :=
  combined_zscores.map (fun row =>
    (uniqueSymbols gs).map (fun x =>
      winsorizedMean ((probeIndices gs x).map (fun t => row.getD t 0))))

/-- Embeds Analysis.getmeanzscores: the pair stored in all_probe_data
as uniqueId and combined_zscores. -/
def getmeanzscores (gs : List String) (combined_zscores : List (List ℚ)) :
    List String × List (List ℚ) :=
  (uniqueSymbols gs, collapsedZscores gs combined_zscores)

theorem winsorizedMean_singleton (x : ℚ) : winsorizedMean [x] = x := by
  rw [winsorizedMean]
  norm_num [sortQ, insertSorted, winsorizeIdx]

/-- C9: a gene symbol with exactly one probe column collapses to that
probe's raw z-score column unchanged (winsorizing a single value is
the identity). -/
theorem c9_single_probe (gs : List String) (M : List (List ℚ)) (i j k : Nat)
    (x : String) (row : List ℚ)
    (hx : (uniqueSymbols gs)[i]? = some x)
    (hk : probeIndices gs x = [k])
    (hrow : M[j]? = some row) :
    (((getmeanzscores gs M).2)[j]?).bind (fun r => r[i]?) = some (row.getD k 0) := by
  show ((collapsedZscores gs M)[j]?).bind (fun r => r[i]?) = some (row.getD k 0)
  rw [collapsedZscores, List.getElem?_map, hrow, Option.map_some', Option.some_bind]
  rw [List.getElem?_map, hx, Option.map_some', hk]
  rw [List.map_cons, List.map_nil, winsorizedMean_singleton]

/-- Witness for C9: symbol A has exactly the single probe column 1. -/
theorem c9_witness :
    (((getmeanzscores ["B", "A", "B"] [[5, 7, 9]]).2)[0]?).bind (fun r => r[0]?) =
      some (([5, 7, 9] : List ℚ).getD 1 0) :=
  c9_single_probe ["B", "A", "B"] [[5, 7, 9]] 0 0 1 "A" [5, 7, 9]
    (by decide) (by decide) rfl

end Pyjugex
